import Mathlib

/-!
Shallow embedding of the `dynamic_array.h` single-header library (the
Doxygen-documented revision whose implementation starts at the
`DYNAMIC_ARRAY_IMPLEMENTATION` block: `da_grow_capacity`, `da_new`,
`da_release`, ..., `da_is_empty`).

Modelling conventions:
* C `int` lengths/capacities are `Nat` (the library asserts they are
  non-negative on entry and never drives them below zero).
* The element buffer is modelled by the list `elems` of the `length` live
  elements (bytes past `length` are uninitialized and unobservable) together
  with `capacity` and the flag `data_null` mirroring `data == NULL`.
* `DA_ASSERT` failures are modelled by `Option`: `none` means the assertion
  at the head of the C function fires.  Null-pointer asserts on the array or
  element arguments themselves cannot be represented (the model has no null
  arrays) and are dropped.
* The compile-time `#ifdef DA_GROWTH` choice is the explicit `Strategy`
  parameter threaded through the operations that grow a buffer.
-/

namespace DynamicArray

/-- Compile-time growth configuration: `fixed S` mirrors `#define DA_GROWTH S`,
`doubling` mirrors the default (no `DA_GROWTH`). -/
inductive Strategy where
  | fixed (S : Nat)
  | doubling
deriving DecidableEq, Repr

/-- Validity of the configuration: `DA_GROWTH`, when defined, is a positive
increment (with `S = 0` the C loop `new_capacity += DA_GROWTH` would never
terminate, so that configuration is excluded from the total model). -/
def StrategyOK : Strategy → Prop
  | .fixed S => 0 < S
  | .doubling => True

instance : DecidablePred StrategyOK := fun st => by
  cases st <;> simp [StrategyOK] <;> infer_instance

/-- Loop `while (new_capacity < min_needed) new_capacity += DA_GROWTH;` from
`da_grow_capacity` (fixed growth strategy).  The `0 < S` guard only excludes
the divergent `S = 0` configuration. -/
def fixedLoop (S min_needed new_capacity : Nat) : Nat :=
  if h : 0 < S ∧ new_capacity < min_needed then
    fixedLoop S min_needed (new_capacity + S)
  else
    new_capacity
termination_by min_needed - new_capacity
decreasing_by omega

/-- Loop `while (new_capacity < min_needed) new_capacity *= 2;` from the
doubling strategy of `da_grow_capacity` (and all of
`da_builder_grow_capacity`).  The `0 < new_capacity` guard is vacuous at
every call site (the callers first replace capacity `0` by `1`); it only
serves termination. -/
def doubleLoop (min_needed new_capacity : Nat) : Nat :=
  if h : 0 < new_capacity ∧ new_capacity < min_needed then
    doubleLoop min_needed (new_capacity * 2)
  else
    new_capacity
termination_by min_needed - new_capacity
decreasing_by omega

/-- C `static int da_grow_capacity(int current_capacity, int min_needed)`,
with the `#ifdef DA_GROWTH` choice made explicit. -/
def da_grow_capacity (st : Strategy) (current_capacity min_needed : Nat) : Nat :=
  match st with
  | .fixed S => fixedLoop S min_needed current_capacity
  | .doubling =>
      doubleLoop min_needed (if current_capacity = 0 then 1 else current_capacity)

/-- C `static int da_builder_grow_capacity(int current_capacity, int min_needed)`:
builders always use the doubling strategy, regardless of `DA_GROWTH`. -/
def da_builder_grow_capacity (current_capacity min_needed : Nat) : Nat :=
  doubleLoop min_needed (if current_capacity = 0 then 1 else current_capacity)

/-- C `da_array_t`: reference count, live elements (standing for the
`length` prefix of the buffer), capacity, element size, and whether the
`data` pointer is `NULL`. -/
structure da_array (α : Type) where
  ref_count : Int
  elems : List α
  capacity : Nat
  element_size : Nat
  data_null : Bool
deriving DecidableEq, Repr

/-- C `da_builder_t`: like `da_array_t` but with no reference count. -/
structure da_builder (α : Type) where
  elems : List α
  capacity : Nat
  element_size : Nat
  data_null : Bool
deriving DecidableEq, Repr

/-- C `int da_length(da_array arr)`. -/
def da_length {α : Type} (arr : da_array α) : Nat := arr.elems.length

/-- C `int da_capacity(da_array arr)`. -/
def da_capacity {α : Type} (arr : da_array α) : Nat := arr.capacity

/-- The data-model invariant of an array: `0 ≤ length ≤ capacity` (the lower
bound is implicit in `Nat`) and `data == NULL` exactly when `capacity == 0`. -/
def Inv {α : Type} (arr : da_array α) : Prop :=
  arr.elems.length ≤ arr.capacity ∧ (arr.data_null = true ↔ arr.capacity = 0)

instance {α : Type} (arr : da_array α) : Decidable (Inv arr) := by
  unfold Inv; infer_instance

/-- C `da_array da_new(int element_size, int initial_capacity)`; `none` models
the `DA_ASSERT(element_size > 0)` failure (`initial_capacity >= 0` holds by
the `Nat` type). -/
def da_new (α : Type) (element_size initial_capacity : Nat) : Option (da_array α) :=
  if element_size > 0 then
    some { ref_count := 1
         , elems := []
         , capacity := initial_capacity
         , element_size := element_size
         , data_null := decide (¬ initial_capacity > 0) }
  else
    none

/-- Observable outcome of `void da_release(da_array* arr)`: the caller's
handle `*arr` after the call, the surviving heap object (if any), and which
frees were performed. -/
structure ReleaseResult (α : Type) where
  handle : Option (da_array α)
  survivor : Option (da_array α)
  freed_buffer : Bool
  freed_struct : Bool
deriving DecidableEq, Repr

/-- C `void da_release(da_array* arr)`: `old_count = fetch_sub(ref_count, 1)`;
if `old_count == 1` free `data` (when non-`NULL`) and the struct; `*arr = NULL`
always. -/
def da_release {α : Type} (arr : da_array α) : ReleaseResult α :=
  let old_count := arr.ref_count
  if old_count = 1 then
    { handle := none
    , survivor := none
    , freed_buffer := !arr.data_null
    , freed_struct := true }
  else
    { handle := none
    , survivor := some { arr with ref_count := old_count - 1 }
    , freed_buffer := false
    , freed_struct := false }

/-- C `da_array da_retain(da_array arr)`: fetch-add 1, return the same handle. -/
def da_retain {α : Type} (arr : da_array α) : da_array α :=
  { arr with ref_count := arr.ref_count + 1 }

/-- C `void* da_get(da_array arr, int index)`: bounds-checked element read. -/
def da_get {α : Type} (arr : da_array α) (index : Nat) : Option α :=
  if h : index < arr.elems.length then
    some (arr.elems.get ⟨index, h⟩)
  else
    none

/-- C `void da_set(da_array arr, int index, const void* element)`. -/
def da_set {α : Type} (arr : da_array α) (index : Nat) (element : α) :
    Option (da_array α) :=
  if index < arr.elems.length then
    some { arr with elems := arr.elems.set index element }
  else
    none

/-- The growth-on-demand block shared verbatim by `da_push` and `da_insert`:
`if (arr->length >= arr->capacity) { grow; realloc; capacity = new; }`.
`data_null` becomes `false` because the successful `DA_REALLOC` result is
asserted non-`NULL`. -/
def growIfFull {α : Type} (st : Strategy) (arr : da_array α) : da_array α :=
  if arr.elems.length ≥ arr.capacity then
    { arr with
        capacity := da_grow_capacity st arr.capacity (arr.elems.length + 1)
      , data_null := false }
  else
    arr

/-- C `void da_push(da_array arr, const void* element)`. -/
def da_push {α : Type} (st : Strategy) (arr : da_array α) (element : α) :
    da_array α :=
  let arr := growIfFull st arr
  { arr with elems := arr.elems ++ [element] }

/-- C `void da_insert(da_array arr, int index, const void* element)`: the
shift-right-then-write of the C code is `List.insertIdx`. -/
def da_insert {α : Type} (st : Strategy) (arr : da_array α) (index : Nat)
    (element : α) : Option (da_array α) :=
  if index ≤ arr.elems.length then
    let arr := growIfFull st arr
    some { arr with elems := arr.elems.insertIdx index element }
  else
    none

/-- C `void da_remove(da_array arr, int index, void* out)`: returns the new
array together with the removed element (the C code copies it to `out` when
`out != NULL`). -/
def da_remove {α : Type} (arr : da_array α) (index : Nat) :
    Option (da_array α × α) :=
  if h : index < arr.elems.length then
    some ({ arr with elems := arr.elems.eraseIdx index }, arr.elems.get ⟨index, h⟩)
  else
    none

/-- C `void da_pop(da_array arr, void* out)`. -/
def da_pop {α : Type} (arr : da_array α) : Option (da_array α × α) :=
  if h : 0 < arr.elems.length then
    some ({ arr with elems := arr.elems.dropLast },
          arr.elems.getLast (List.ne_nil_of_length_pos h))
  else
    none

/-- C `void da_clear(da_array arr)`: `length = 0`, capacity kept. -/
def da_clear {α : Type} (arr : da_array α) : da_array α :=
  { arr with elems := [] }

/-- C `void da_reserve(da_array arr, int new_capacity)`: grow-only. -/
def da_reserve {α : Type} (arr : da_array α) (new_capacity : Nat) : da_array α :=
  if new_capacity > arr.capacity then
    { arr with capacity := new_capacity, data_null := false }
  else
    arr

/-- C `void da_resize(da_array arr, int new_length)`.  `z` stands for the
element whose bytes are all zero, as written by the `memset` zero-fill. -/
def da_resize {α : Type} (z : α) (arr : da_array α) (new_length : Nat) :
    da_array α :=
  let arr := if new_length > arr.capacity then da_reserve arr new_length else arr
  if new_length > arr.elems.length then
    { arr with elems := arr.elems ++ List.replicate (new_length - arr.elems.length) z }
  else
    { arr with elems := arr.elems.take new_length }

/-- C `void da_trim(da_array arr, int new_capacity)`; `none` models the
`DA_ASSERT(new_capacity >= arr->length)` failure. -/
def da_trim {α : Type} (arr : da_array α) (new_capacity : Nat) :
    Option (da_array α) :=
  if new_capacity ≥ arr.elems.length then
    some (if new_capacity < arr.capacity then
            if new_capacity = 0 then
              { arr with capacity := 0, data_null := true }
            else
              { arr with capacity := new_capacity, data_null := false }
          else arr)
  else
    none

/-- C `void da_append_array(da_array dest, da_array src)`; `none` models the
`DA_ASSERT(dest->element_size == src->element_size)` failure. -/
def da_append_array {α : Type} (st : Strategy) (dest src : da_array α) :
    Option (da_array α) :=
  if dest.element_size = src.element_size then
    if src.elems.length = 0 then some dest
    else
      let new_length := dest.elems.length + src.elems.length
      let dest :=
        if new_length > dest.capacity then
          { dest with
              capacity := da_grow_capacity st dest.capacity new_length
            , data_null := false }
        else dest
      some { dest with elems := dest.elems ++ src.elems }
  else
    none

/-- C `da_array da_concat(da_array arr1, da_array arr2)`: a fresh array of
exact capacity `arr1->length + arr2->length` with ref count 1. -/
def da_concat {α : Type} (arr1 arr2 : da_array α) : Option (da_array α) :=
  if arr1.element_size = arr2.element_size then
    let total_length := arr1.elems.length + arr2.elems.length
    some { ref_count := 1
         , elems := arr1.elems ++ arr2.elems
         , capacity := total_length
         , element_size := arr1.element_size
         , data_null := decide (¬ total_length > 0) }
  else
    none

/-- C `void da_append_raw(da_array arr, const void* data, int count)`: the
`count` raw source elements are the list `data`. -/
def da_append_raw {α : Type} (st : Strategy) (arr : da_array α) (data : List α) :
    da_array α :=
  if data.length = 0 then arr
  else
    let new_length := arr.elems.length + data.length
    let arr :=
      if new_length > arr.capacity then
        { arr with
            capacity := da_grow_capacity st arr.capacity new_length
          , data_null := false }
      else arr
    { arr with elems := arr.elems ++ data }

/-- C `void da_fill(da_array arr, const void* element, int count)`. -/
def da_fill {α : Type} (st : Strategy) (arr : da_array α) (element : α)
    (count : Nat) : da_array α :=
  if count = 0 then arr
  else
    let new_length := arr.elems.length + count
    let arr :=
      if new_length > arr.capacity then
        { arr with
            capacity := da_grow_capacity st arr.capacity new_length
          , data_null := false }
      else arr
    { arr with elems := arr.elems ++ List.replicate count element }

/-- C `da_array da_slice(da_array arr, int start, int end)` (`end` is a Lean
keyword, renamed `stop`): fresh exact-capacity array of elements
`start .. stop-1`. -/
def da_slice {α : Type} (arr : da_array α) (start stop : Nat) :
    Option (da_array α) :=
  if start ≤ arr.elems.length ∧ start ≤ stop ∧ stop ≤ arr.elems.length then
    let slice_length := stop - start
    some { ref_count := 1
         , elems := (arr.elems.take stop).drop start
         , capacity := slice_length
         , element_size := arr.element_size
         , data_null := decide (¬ slice_length > 0) }
  else
    none

/-- C `void da_remove_range(da_array arr, int start, int count)`; the guard is
exactly the conjunction of the C asserts `start >= 0 && start < arr->length`
and `count >= 0`, `start + count <= arr->length`. -/
def da_remove_range {α : Type} (arr : da_array α) (start count : Nat) :
    Option (da_array α) :=
  if start < arr.elems.length ∧ start + count ≤ arr.elems.length then
    if count = 0 then some arr
    else some { arr with elems := arr.elems.take start ++ arr.elems.drop (start + count) }
  else
    none

/-- C `void da_reverse(da_array arr)`: the end-to-center swap loop realizes
list reversal. -/
def da_reverse {α : Type} (arr : da_array α) : da_array α :=
  { arr with elems := arr.elems.reverse }

/-- C `void da_swap(da_array arr, int i, int j)`. -/
def da_swap {α : Type} (arr : da_array α) (i j : Nat) : Option (da_array α) :=
  if h : i < arr.elems.length ∧ j < arr.elems.length then
    if i = j then some arr
    else
      some { arr with
               elems := (arr.elems.set i (arr.elems.get ⟨j, h.2⟩)).set j
                          (arr.elems.get ⟨i, h.1⟩) }
  else
    none

/-- C `da_array da_copy(da_array arr)`: fresh array, exact capacity, ref count 1. -/
def da_copy {α : Type} (arr : da_array α) : da_array α :=
  { ref_count := 1
  , elems := arr.elems
  , capacity := arr.elems.length
  , element_size := arr.element_size
  , data_null := decide (¬ arr.elems.length > 0) }

/-- C `da_array da_map(da_array arr, mapper, context)`: the mapper writes one
complete element of the same size per index; with its context folded in it is
the pure function `mapper`. -/
def da_map {α : Type} (arr : da_array α) (mapper : α → α) : da_array α :=
  { ref_count := 1
  , elems := arr.elems.map mapper
  , capacity := arr.elems.length
  , element_size := arr.element_size
  , data_null := decide (¬ arr.elems.length > 0) }

/-- C `void da_reduce(da_array arr, initial, result, reducer, context)`:
sequential left fold starting from `initial`. -/
def da_reduce {α β : Type} (arr : da_array α) (initial : β) (reducer : β → α → β) : β :=
  arr.elems.foldl reducer initial

/-- C `int da_is_empty(da_array arr)`. -/
def da_is_empty {α : Type} (arr : da_array α) : Bool :=
  arr.elems.length = 0

/- Builder operations -/

/-- C `da_builder da_builder_create(int element_size)`; `none` models the
`DA_ASSERT(element_size > 0)` failure. -/
def da_builder_create (α : Type) (element_size : Nat) : Option (da_builder α) :=
  if element_size > 0 then
    some { elems := [], capacity := 0, element_size := element_size, data_null := true }
  else
    none

/-- C `void da_builder_append(da_builder builder, const void* element)`:
doubling growth via `da_builder_grow_capacity`, then write at `length`. -/
def da_builder_append {α : Type} (b : da_builder α) (element : α) : da_builder α :=
  let b :=
    if b.elems.length ≥ b.capacity then
      { b with
          capacity := da_builder_grow_capacity b.capacity (b.elems.length + 1)
        , data_null := false }
    else b
  { b with elems := b.elems ++ [element] }

/-- C `da_array da_builder_to_array(da_builder* builder)`: the buffer is moved
into a fresh array and shrunk (realloc or free) to exact capacity
`length`; ref count starts at 1; the builder struct is freed and the handle
nulled (unobservable here). -/
def da_builder_to_array {α : Type} (b : da_builder α) : da_array α :=
  { ref_count := 1
  , elems := b.elems
  , capacity := b.elems.length
  , element_size := b.element_size
  , data_null := decide (¬ b.elems.length > 0) }

/-- C `void da_builder_clear(da_builder builder)`. -/
def da_builder_clear {α : Type} (b : da_builder α) : da_builder α :=
  { b with elems := [] }

/-- C `da_array da_filter(da_array arr, predicate, context)`: single forward
pass appending each element with non-zero predicate value to an internal
builder, finalized by `da_builder_to_array`.  The predicate returns a C
`int`, modelled as `Int`; `none` models the assertion failure inside
`da_builder_create` when `arr.element_size = 0`. -/
def da_filter {α : Type} (arr : da_array α) (predicate : α → Int) :
    Option (da_array α) :=
  (da_builder_create α arr.element_size).map (fun b0 =>
    da_builder_to_array
      (arr.elems.foldl
        (fun b x => if predicate x ≠ 0 then da_builder_append b x else b) b0))

/-- A sequence of `da_push` calls, folded left over the pushed values. -/
def pushSeq {α : Type} (st : Strategy) (arr : da_array α) (vs : List α) :
    da_array α :=
  vs.foldl (da_push st) arr

/-- Concrete array used to instantiate witnesses: holds three `int` elements
with one slot of slack, single reference. -/
def sampleArr : da_array Int :=
  { ref_count := 1, elems := [10, 20, 30], capacity := 4, element_size := 8
  , data_null := false }

/-- Concrete shared array (share count 2) used to instantiate witnesses. -/
def sampleShared : da_array Int :=
  { ref_count := 2, elems := [7], capacity := 1, element_size := 8
  , data_null := false }

/-- Concrete unsorted array used to instantiate the sort witness. -/
def sampleUnsorted : da_array Int :=
  { ref_count := 1, elems := [3, 1, 2], capacity := 3, element_size := 8
  , data_null := false }

/-- Concrete three-way `int` comparator (ascending) for the sort witness. -/
def intCmp : Int → Int → Int := fun a b => a - b

/-- Concrete `int`-returning predicate (non-zero on even values) for the
filter witness. -/
def evenPred : Int → Int := fun x => if x % 2 = 0 then 1 else 0

/- Specification-side growth functions (for the refinement claim about
`da_grow_capacity`), written from the spec's pseudocode, to be compared with
the source-side definitions above. -/

/-- Spec §3 growth directive, fixed step `S`:
`new = old; while new < needed: new += S` (same `0 < S` totality guard as the
source model). -/
def specFixedStep (S needed new : Nat) : Nat :=
  if h : 0 < S ∧ new < needed then specFixedStep S needed (new + S) else new
termination_by needed - new
decreasing_by omega

/-- Spec §3 growth directive, doubling, inner loop:
`while new < needed: new *= 2` (the `0 < new` guard is vacuous since the
loop starts from a positive value). -/
def specDoublingLoop (needed new : Nat) : Nat :=
  if h : 0 < new ∧ new < needed then specDoublingLoop needed (new * 2) else new
termination_by needed - new
decreasing_by omega

/-- Spec §3 growth directive, doubling:
`new = old==0 ? 1 : old; while new < needed: new *= 2`. -/
def specDoubling (needed old : Nat) : Nat :=
  specDoublingLoop needed (if old = 0 then 1 else old)

/- Spec-modelled operations.  The revision of `dynamic_array.h` carrying the
per-element hooks and the search/sort functions is not under `src/`; only
its callers (`test.c`, which calls the four-argument `da_create` and
`da_sort`) and the changelog are.  These are modelled from the spec. -/

/-- Events observable during array teardown, for the hooked release. -/
inductive TeardownEvent (α : Type) where
  | destroyElem (x : α)
  | freeBuffer
  | freeStruct
deriving DecidableEq, Repr

/-- Whether a teardown event is an `on_destroy` invocation. -/
def isDestroy {α : Type} : TeardownEvent α → Bool
  | .destroyElem _ => true
  | _ => false

/-- Modelled from the spec: the hooked `da_release` of the revision with
`on_retain`/`on_destroy` fields is not under `src/` (only `test.c` exercises
it).  Spec §4.1: "atomically decrements `share_count`; always nulls the
caller's handle; if the pre-decrement value was 1, invokes `on_destroy` on
every live element (if configured) in unspecified order, frees the buffer,
frees the struct."  `has_destroy_hook` records whether `on_destroy` was
configured; the second component is the teardown event trace. -/
def da_release_hooked {α : Type} (has_destroy_hook : Bool) (arr : da_array α) :
    ReleaseResult α × List (TeardownEvent α) :=
  let old_count := arr.ref_count
  if old_count = 1 then
    ({ handle := none
     , survivor := none
     , freed_buffer := !arr.data_null
     , freed_struct := true },
     (if has_destroy_hook then arr.elems.map TeardownEvent.destroyElem else [])
       ++ (if !arr.data_null then [TeardownEvent.freeBuffer] else [])
       ++ [TeardownEvent.freeStruct])
  else
    ({ handle := none
     , survivor := some { arr with ref_count := old_count - 1 }
     , freed_buffer := false
     , freed_struct := false },
     [])

/-- Order induced by a three-way comparator: `x` precedes `y` when
`cmp(x, y) ≤ 0`. -/
def cmpLe {α : Type} (cmp : α → α → Int) (x y : α) : Prop := cmp x y ≤ 0

instance {α : Type} (cmp : α → α → Int) : DecidableRel (cmpLe cmp) :=
  fun x y => Int.decLe (cmp x y) 0

/-- Modelled from the spec: `da_sort` is not under `src/` (only `test.c`
calls it and the changelog lists it).  Spec §4.1: "arbitrary in-place
comparison sort; `cmp(a,b,ctx)` returns negative/zero/positive exactly like a
three-way comparator".  The arbitrary comparison sort is taken to be
insertion sort on the relation `cmp x y ≤ 0`. -/
def da_sort {α : Type} (arr : da_array α) (cmp : α → α → Int) : da_array α :=
  { arr with elems := arr.elems.insertionSort (cmpLe cmp) }

/- Enumeration of the array operations, used to state invariant preservation
once for all of them. -/

/-- One array operation together with its non-array arguments (the second
array of the binary operations rides along in the constructor). -/
inductive ArrOp (α : Type) where
  | set (index : Nat) (element : α)
  | push (element : α)
  | insert (index : Nat) (element : α)
  | remove (index : Nat)
  | pop
  | clear
  | reserve (new_capacity : Nat)
  | resize (z : α) (new_length : Nat)
  | trim (new_capacity : Nat)
  | appendArray (src : da_array α)
  | appendRaw (data : List α)
  | fill (element : α) (count : Nat)
  | concat (other : da_array α)
  | slice (start stop : Nat)
  | removeRange (start count : Nat)
  | reverse
  | swap (i j : Nat)
  | copy
  | map (mapper : α → α)
  | filter (predicate : α → Int)
  | retain
  | releaseSurvivor

/-- Run one operation on an array; the resulting array is the mutated array
for the in-place operations and the freshly produced one for
`copy`/`slice`/`concat`/`map`/`filter`; `none` is an assertion failure (or,
for `releaseSurvivor`, a freeing release). -/
def runOp {α : Type} (st : Strategy) (op : ArrOp α) (arr : da_array α) :
    Option (da_array α) :=
  match op with
  | .set i v => da_set arr i v
  | .push v => some (da_push st arr v)
  | .insert i v => da_insert st arr i v
  | .remove i => (da_remove arr i).map Prod.fst
  | .pop => (da_pop arr).map Prod.fst
  | .clear => some (da_clear arr)
  | .reserve n => some (da_reserve arr n)
  | .resize z n => some (da_resize z arr n)
  | .trim n => da_trim arr n
  | .appendArray src => da_append_array st arr src
  | .appendRaw data => some (da_append_raw st arr data)
  | .fill v c => some (da_fill st arr v c)
  | .concat other => da_concat arr other
  | .slice s e => da_slice arr s e
  | .removeRange s c => da_remove_range arr s c
  | .reverse => some (da_reverse arr)
  | .swap i j => da_swap arr i j
  | .copy => some (da_copy arr)
  | .map f => some (da_map arr f)
  | .filter p => da_filter arr p
  | .retain => some (da_retain arr)
  | .releaseSurvivor => (da_release arr).survivor

/- Helper lemmas about the growth functions. -/

theorem fixedLoop_ge (S min_needed : Nat) (hS : 0 < S) :
    ∀ c, min_needed ≤ fixedLoop S min_needed c := by
  suffices h : ∀ n c, min_needed - c = n → min_needed ≤ fixedLoop S min_needed c by
    intro c; exact h _ c rfl
  intro n
  induction n using Nat.strong_induction_on with
  | _ n ih =>
    intro c hc
    rw [fixedLoop]
    by_cases hlt : c < min_needed
    · rw [dif_pos ⟨hS, hlt⟩]
      exact ih (min_needed - (c + S)) (by omega) (c + S) rfl
    · rw [dif_neg (by omega)]; omega

theorem doubleLoop_ge (min_needed : Nat) :
    ∀ c, 0 < c → min_needed ≤ doubleLoop min_needed c := by
  suffices h : ∀ n c, min_needed - c = n → 0 < c →
      min_needed ≤ doubleLoop min_needed c by
    intro c; exact h _ c rfl
  intro n
  induction n using Nat.strong_induction_on with
  | _ n ih =>
    intro c hc hpos
    rw [doubleLoop]
    by_cases hlt : c < min_needed
    · rw [dif_pos ⟨hpos, hlt⟩]
      exact ih (min_needed - c * 2) (by omega) (c * 2) rfl (by omega)
    · rw [dif_neg (by omega)]; omega

theorem da_grow_capacity_ge {st : Strategy} (hst : StrategyOK st)
    (cap min_needed : Nat) : min_needed ≤ da_grow_capacity st cap min_needed := by
  cases st with
  | fixed S => exact fixedLoop_ge S min_needed hst cap
  | doubling =>
    exact doubleLoop_ge min_needed _ (by split <;> omega)

theorem da_builder_grow_capacity_ge (cap min_needed : Nat) :
    min_needed ≤ da_builder_grow_capacity cap min_needed :=
  doubleLoop_ge min_needed _ (by split <;> omega)

/- Helper lemmas about push/insert growth. -/

theorem growIfFull_elems {α : Type} (st : Strategy) (arr : da_array α) :
    (growIfFull st arr).elems = arr.elems := by
  unfold growIfFull; split <;> rfl

theorem growIfFull_element_size {α : Type} (st : Strategy) (arr : da_array α) :
    (growIfFull st arr).element_size = arr.element_size := by
  unfold growIfFull; split <;> rfl

theorem growIfFull_ref_count {α : Type} (st : Strategy) (arr : da_array α) :
    (growIfFull st arr).ref_count = arr.ref_count := by
  unfold growIfFull; split <;> rfl

/-- After the on-demand growth step there is room for one more element, and
the buffer-null flag still matches `capacity = 0`. -/
theorem growIfFull_inv {α : Type} {st : Strategy} (hst : StrategyOK st)
    (arr : da_array α) (hinv : Inv arr) :
    arr.elems.length + 1 ≤ (growIfFull st arr).capacity ∧
      ((growIfFull st arr).data_null = true ↔ (growIfFull st arr).capacity = 0) := by
  obtain ⟨hlen, hnull⟩ := hinv
  unfold growIfFull
  by_cases h : arr.elems.length ≥ arr.capacity
  · rw [if_pos h]
    have hg := da_grow_capacity_ge hst arr.capacity (arr.elems.length + 1)
    refine ⟨hg, ?_⟩
    simp only [Bool.false_eq_true, false_iff]
    omega
  · rw [if_neg h]
    exact ⟨by omega, hnull⟩

theorem da_push_elems {α : Type} (st : Strategy) (arr : da_array α) (v : α) :
    (da_push st arr v).elems = arr.elems ++ [v] := by
  simp only [da_push, growIfFull_elems]

theorem da_push_length {α : Type} (st : Strategy) (arr : da_array α) (v : α) :
    (da_push st arr v).elems.length = arr.elems.length + 1 := by
  rw [da_push_elems]; simp

theorem da_push_inv {α : Type} {st : Strategy} (hst : StrategyOK st)
    (arr : da_array α) (v : α) (hinv : Inv arr) : Inv (da_push st arr v) := by
  obtain ⟨h1, h2⟩ := growIfFull_inv hst arr hinv
  simp only [da_push, Inv, growIfFull_elems, List.length_append,
    List.length_singleton]
  exact ⟨h1, h2⟩

theorem da_push_capacity_of_inv {α : Type} {st : Strategy} (hst : StrategyOK st)
    (arr : da_array α) (v : α) (hinv : Inv arr) :
    (da_push st arr v).elems.length ≤ (da_push st arr v).capacity :=
  (da_push_inv hst arr v hinv).1

/- Helper lemmas about builders. -/

theorem da_builder_append_elems {α : Type} (b : da_builder α) (v : α) :
    (da_builder_append b v).elems = b.elems ++ [v] := by
  unfold da_builder_append
  split <;> rfl

theorem da_builder_append_element_size {α : Type} (b : da_builder α) (v : α) :
    (da_builder_append b v).element_size = b.element_size := by
  unfold da_builder_append
  split <;> rfl

/-- The elements accumulated by the filter loop of `da_filter`: each element
with non-zero predicate value is appended, in order. -/
theorem filter_foldl_elems {α : Type} (predicate : α → Int) :
    ∀ (l : List α) (b : da_builder α),
      (l.foldl (fun b x => if predicate x ≠ 0 then da_builder_append b x else b)
          b).elems
        = b.elems ++ l.filter (fun x => decide (predicate x ≠ 0)) := by
  intro l
  induction l with
  | nil => intro b; simp
  | cons x xs ih =>
    intro b
    rw [List.foldl_cons, List.filter_cons]
    by_cases hx : predicate x ≠ 0
    · rw [if_pos hx, ih, da_builder_append_elems, decide_eq_true hx]
      simp
    · rw [if_neg hx, ih, decide_eq_false hx]
      simp

theorem filter_foldl_element_size {α : Type} (predicate : α → Int) :
    ∀ (l : List α) (b : da_builder α),
      (l.foldl (fun b x => if predicate x ≠ 0 then da_builder_append b x else b)
          b).element_size = b.element_size := by
  intro l
  induction l with
  | nil => intro b; rfl
  | cons x xs ih =>
    intro b
    rw [List.foldl_cons]
    by_cases hx : predicate x ≠ 0
    · rw [if_pos hx, ih, da_builder_append_element_size]
    · rw [if_neg hx, ih]

/-- Characterization of `da_filter` on a positive element size: it succeeds
and returns exactly the matching elements in order, at exact capacity. -/
theorem da_filter_eq {α : Type} (arr : da_array α) (predicate : α → Int)
    (hes : 0 < arr.element_size) :
    da_filter arr predicate
      = some { ref_count := 1
             , elems := arr.elems.filter (fun x => decide (predicate x ≠ 0))
             , capacity := (arr.elems.filter (fun x => decide (predicate x ≠ 0))).length
             , element_size := arr.element_size
             , data_null := decide (¬ (arr.elems.filter
                 (fun x => decide (predicate x ≠ 0))).length > 0) } := by
  unfold da_filter da_builder_create
  rw [if_pos hes]
  rw [Option.map_some']
  congr 1
  unfold da_builder_to_array
  have he := filter_foldl_elems predicate arr.elems
    { elems := [], capacity := 0, element_size := arr.element_size, data_null := true }
  have hs := filter_foldl_element_size predicate arr.elems
    { elems := [], capacity := 0, element_size := arr.element_size, data_null := true }
  simp only [List.nil_append] at he
  rw [he, hs]

theorem da_push_element_size {α : Type} (st : Strategy) (arr : da_array α)
    (v : α) : (da_push st arr v).element_size = arr.element_size := by
  simp only [da_push, growIfFull_element_size]

/-- Capacity covers the length after a push, needing only the length bound of
the input (not the buffer-null half of the invariant). -/
theorem da_push_cap {α : Type} {st : Strategy} (hst : StrategyOK st)
    (arr : da_array α) (v : α) (h : arr.elems.length ≤ arr.capacity) :
    (da_push st arr v).elems.length ≤ (da_push st arr v).capacity := by
  rw [da_push_length]
  simp only [da_push, growIfFull]
  by_cases hfull : arr.elems.length ≥ arr.capacity
  · rw [if_pos hfull]
    exact da_grow_capacity_ge hst arr.capacity (arr.elems.length + 1)
  · rw [if_neg hfull]
    omega

theorem pushSeq_cap {α : Type} {st : Strategy} (hst : StrategyOK st) :
    ∀ (vs : List α) (arr : da_array α), arr.elems.length ≤ arr.capacity →
      (pushSeq st arr vs).elems.length ≤ (pushSeq st arr vs).capacity := by
  intro vs
  induction vs with
  | nil => intro arr h; exact h
  | cons v xs ih =>
    intro arr h
    exact ih (da_push st arr v) (da_push_cap hst arr v h)

/- Equivalence of the source growth loops with the spec growth functions. -/

theorem fixedLoop_eq_specFixedStep (S min_needed : Nat) :
    ∀ c, fixedLoop S min_needed c = specFixedStep S min_needed c := by
  suffices h : ∀ n c, min_needed - c = n →
      fixedLoop S min_needed c = specFixedStep S min_needed c by
    intro c; exact h _ c rfl
  intro n
  induction n using Nat.strong_induction_on with
  | _ n ih =>
    intro c hc
    rw [fixedLoop, specFixedStep]
    by_cases hlt : 0 < S ∧ c < min_needed
    · rw [dif_pos hlt, dif_pos hlt]
      exact ih (min_needed - (c + S)) (by omega) (c + S) rfl
    · rw [dif_neg hlt, dif_neg hlt]

theorem doubleLoop_eq_specDoublingLoop (min_needed : Nat) :
    ∀ c, doubleLoop min_needed c = specDoublingLoop min_needed c := by
  suffices h : ∀ n c, min_needed - c = n →
      doubleLoop min_needed c = specDoublingLoop min_needed c by
    intro c; exact h _ c rfl
  intro n
  induction n using Nat.strong_induction_on with
  | _ n ih =>
    intro c hc
    rw [doubleLoop, specDoublingLoop]
    by_cases hlt : 0 < c ∧ c < min_needed
    · rw [dif_pos hlt, dif_pos hlt]
      exact ih (min_needed - c * 2) (by omega) (c * 2) rfl
    · rw [dif_neg hlt, dif_neg hlt]

/- Claim theorems. -/

/-- C1: for every `da_release` on a valid array handle whose share count
before the call is `N`, the caller's handle is always null afterwards; if
`N > 1` the array stays alive with share count `N − 1` and no memory is
freed; the release that observes pre-decrement value `1` is the one that
frees the buffer (when present) and the array struct. -/
theorem release_refcount_contract (α : Type) (arr : da_array α) (N : Int)
    (hN : arr.ref_count = N) (hvalid : 1 ≤ N) :
    (da_release arr).handle = none ∧
    (1 < N →
      (da_release arr).survivor = some { arr with ref_count := N - 1 } ∧
      (da_release arr).freed_buffer = false ∧
      (da_release arr).freed_struct = false) ∧
    ((da_release arr).freed_struct = true ↔ N = 1) ∧
    (N = 1 →
      (da_release arr).freed_buffer = !arr.data_null ∧
      (da_release arr).survivor = none) := by
  subst hN
  simp only [da_release]
  by_cases h : arr.ref_count = 1
  · rw [if_pos h]
    exact ⟨rfl, fun hlt => absurd h (by omega), by simp [h],
           fun _ => ⟨rfl, rfl⟩⟩
  · rw [if_neg h]
    exact ⟨rfl, fun _ => ⟨rfl, rfl, rfl⟩, by simp [h], fun h1 => absurd h1 h⟩

theorem release_refcount_contract_witness :
    (da_release sampleShared).handle = none ∧
    (da_release sampleShared).survivor
        = some { sampleShared with ref_count := 1 } ∧
    (da_release sampleShared).freed_buffer = false ∧
    (da_release sampleShared).freed_struct = false := by
  have h := release_refcount_contract Int sampleShared 2 rfl (by norm_num)
  have h2 := h.2.1 (by norm_num)
  exact ⟨h.1, h2.1, h2.2.1, h2.2.2⟩

/-- C4: capacity growth equals the spec's pure growth function: the
fixed-step strategy repeatedly adds `S`, the doubling strategy doubles
(starting from 1 when the old capacity is 0), and builders always use the
doubling computation regardless of the configured strategy. -/
theorem growth_matches_spec :
    (∀ S current_capacity min_needed,
      da_grow_capacity (.fixed S) current_capacity min_needed
        = specFixedStep S min_needed current_capacity) ∧
    (∀ current_capacity min_needed,
      da_grow_capacity .doubling current_capacity min_needed
        = specDoubling min_needed current_capacity) ∧
    (∀ current_capacity min_needed,
      da_builder_grow_capacity current_capacity min_needed
        = specDoubling min_needed current_capacity) := by
  refine ⟨fun S c m => ?_, fun c m => ?_, fun c m => ?_⟩
  · exact fixedLoop_eq_specFixedStep S m c
  · unfold da_grow_capacity specDoubling
    exact doubleLoop_eq_specDoublingLoop m _
  · unfold da_builder_grow_capacity specDoubling
    exact doubleLoop_eq_specDoublingLoop m _

/-- C9: inserting at index `length` leaves the array in exactly the same
state as a push of the same element. -/
theorem insert_at_length_eq_push (α : Type) (st : Strategy)
    (arr : da_array α) (v : α) :
    da_insert st arr arr.elems.length v = some (da_push st arr v) := by
  have h := growIfFull_elems st arr
  simp only [da_insert, if_pos (le_refl arr.elems.length), da_push, h]
  rw [List.insertIdx_length_self]

/-- C10: `da_remove_range` requires `start < length` even when `count = 0`:
the call at `start = length` (in particular on an empty array) fails the
assertion, while `count = 0` with `start < length` is a no-op. -/
theorem remove_range_zero_count (α : Type) :
    (∀ arr : da_array α, da_remove_range arr arr.elems.length 0 = none) ∧
    (∀ (arr : da_array α) (start : Nat), start < arr.elems.length →
      da_remove_range arr start 0 = some arr) := by
  constructor
  · intro arr
    unfold da_remove_range
    rw [if_neg (by omega)]
  · intro arr start hs
    unfold da_remove_range
    rw [if_pos ⟨hs, by omega⟩, if_pos rfl]

theorem remove_range_zero_count_witness :
    da_remove_range sampleArr sampleArr.elems.length 0 = none ∧
    (0 < sampleArr.elems.length ∧
      da_remove_range sampleArr 0 0 = some sampleArr) :=
  ⟨(remove_range_zero_count Int).1 sampleArr,
   by decide,
   (remove_range_zero_count Int).2 sampleArr 0 (by decide)⟩

/-- C2: every array returned by `da_copy`, `da_slice`, `da_concat`,
`da_filter`, `da_map`, or `da_builder_to_array` satisfies
`capacity == length` exactly, with share count 1. -/
theorem results_exact_capacity (α : Type) :
    (∀ arr : da_array α,
      (da_copy arr).capacity = (da_copy arr).elems.length ∧
      (da_copy arr).ref_count = 1) ∧
    (∀ (arr : da_array α) (start stop : Nat) (r : da_array α),
      da_slice arr start stop = some r →
      r.capacity = r.elems.length ∧ r.ref_count = 1) ∧
    (∀ (arr1 arr2 r : da_array α), da_concat arr1 arr2 = some r →
      r.capacity = r.elems.length ∧ r.ref_count = 1) ∧
    (∀ (arr : da_array α) (predicate : α → Int) (r : da_array α),
      da_filter arr predicate = some r →
      r.capacity = r.elems.length ∧ r.ref_count = 1) ∧
    (∀ (arr : da_array α) (mapper : α → α),
      (da_map arr mapper).capacity = (da_map arr mapper).elems.length ∧
      (da_map arr mapper).ref_count = 1) ∧
    (∀ b : da_builder α,
      (da_builder_to_array b).capacity = (da_builder_to_array b).elems.length ∧
      (da_builder_to_array b).ref_count = 1) := by
  refine ⟨fun arr => ⟨rfl, rfl⟩, ?_, ?_, ?_, fun arr f => ⟨by simp [da_map], rfl⟩,
          fun b => ⟨rfl, rfl⟩⟩
  · intro arr start stop r h
    unfold da_slice at h
    split_ifs at h with hg
    simp only [Option.some.injEq] at h
    subst h
    refine ⟨?_, rfl⟩
    simp only [List.length_drop, List.length_take]
    omega
  · intro arr1 arr2 r h
    unfold da_concat at h
    split_ifs at h with hg
    simp only [Option.some.injEq] at h
    subst h
    exact ⟨by simp, rfl⟩
  · intro arr predicate r h
    unfold da_filter da_builder_create at h
    split_ifs at h with hg
    · simp only [Option.map_some', Option.some.injEq] at h
      subst h
      exact ⟨rfl, rfl⟩
    · simp at h

theorem results_exact_capacity_witness :
    ∃ r, da_slice sampleArr 1 3 = some r ∧
      r.capacity = r.elems.length ∧ r.ref_count = 1 :=
  ⟨_, rfl, (results_exact_capacity Int).2.1 sampleArr 1 3 _ rfl⟩

/-- C6: `da_filter` returns a new array containing exactly the elements on
which the predicate is non-zero, in their original relative order (it equals
`List.filter`), with length equal to the count of matching elements and
capacity equal to that count. -/
theorem filter_order_and_count (α : Type) (arr : da_array α)
    (predicate : α → Int) (hes : 0 < arr.element_size) :
    ∃ r, da_filter arr predicate = some r ∧
      r.elems = arr.elems.filter (fun x => decide (predicate x ≠ 0)) ∧
      r.elems.length = arr.elems.countP (fun x => decide (predicate x ≠ 0)) ∧
      r.capacity = r.elems.length := by
  refine ⟨_, da_filter_eq arr predicate hes, rfl, ?_, rfl⟩
  exact (List.countP_eq_length_filter _ _).symm

theorem filter_order_and_count_witness :
    ∃ r, da_filter sampleArr evenPred = some r ∧
      r.elems = sampleArr.elems.filter (fun x => decide (evenPred x ≠ 0)) ∧
      r.elems.length
        = sampleArr.elems.countP (fun x => decide (evenPred x ≠ 0)) ∧
      r.capacity = r.elems.length :=
  filter_order_and_count Int sampleArr evenPred (by decide)

/-- C7: in any sequence of pushes on an array whose length is within
capacity, the push of the `i`-th value increases the length by exactly 1 and
leaves `capacity ≥ length`. -/
theorem push_seq_length_capacity (α : Type) (st : Strategy)
    (hst : StrategyOK st) (arr : da_array α)
    (hcap : arr.elems.length ≤ arr.capacity) (vs : List α) (i : Nat)
    (hi : i < vs.length) :
    (da_push st (pushSeq st arr (vs.take i)) (vs.get ⟨i, hi⟩)).elems.length
        = (pushSeq st arr (vs.take i)).elems.length + 1 ∧
    (da_push st (pushSeq st arr (vs.take i)) (vs.get ⟨i, hi⟩)).elems.length
        ≤ (da_push st (pushSeq st arr (vs.take i)) (vs.get ⟨i, hi⟩)).capacity :=
  ⟨da_push_length st _ _,
   da_push_cap hst _ _ (pushSeq_cap hst (vs.take i) arr hcap)⟩

theorem push_seq_length_capacity_witness :
    (da_push .doubling (pushSeq .doubling sampleArr ([1, 2, 3].take 1))
        ([(1 : Int), 2, 3].get ⟨1, by decide⟩)).elems.length
      = (pushSeq .doubling sampleArr ([1, 2, 3].take 1)).elems.length + 1 ∧
    (da_push .doubling (pushSeq .doubling sampleArr ([1, 2, 3].take 1))
        ([(1 : Int), 2, 3].get ⟨1, by decide⟩)).elems.length
      ≤ (da_push .doubling (pushSeq .doubling sampleArr ([1, 2, 3].take 1))
          ([(1 : Int), 2, 3].get ⟨1, by decide⟩)).capacity :=
  push_seq_length_capacity Int .doubling (by decide) sampleArr (by decide)
    [1, 2, 3] 1 (by decide)

/-- C8: `da_sort` with a three-way comparator consistent with a total order
permutes the array so that `cmp(result[i], result[j]) ≤ 0` for all `i < j`
(spec-modelled: `da_sort` is not under `src/`). -/
theorem sort_pairwise_le (α : Type) (arr : da_array α) (cmp : α → α → Int)
    (htot : ∀ x y, cmp x y ≤ 0 ∨ cmp y x ≤ 0)
    (htrans : ∀ x y z, cmp x y ≤ 0 → cmp y z ≤ 0 → cmp x z ≤ 0)
    (i j : Nat) (hij : i < j) (hj : j < (da_sort arr cmp).elems.length) :
    (da_sort arr cmp).elems.Perm arr.elems ∧
    cmp ((da_sort arr cmp).elems.get ⟨i, lt_trans hij hj⟩)
        ((da_sort arr cmp).elems.get ⟨j, hj⟩) ≤ 0 := by
  haveI : IsTotal α (cmpLe cmp) := ⟨htot⟩
  haveI : IsTrans α (cmpLe cmp) := ⟨htrans⟩
  constructor
  · exact List.perm_insertionSort (cmpLe cmp) arr.elems
  · exact (List.sorted_insertionSort (cmpLe cmp)
      arr.elems).rel_get_of_lt (Fin.mk_lt_mk.mpr hij)

theorem sort_pairwise_le_witness :
    (da_sort sampleUnsorted intCmp).elems.Perm sampleUnsorted.elems ∧
    intCmp ((da_sort sampleUnsorted intCmp).elems.get ⟨0, by decide⟩)
        ((da_sort sampleUnsorted intCmp).elems.get ⟨1, by decide⟩) ≤ 0 :=
  sort_pairwise_le Int sampleUnsorted intCmp
    (fun x y => by unfold intCmp; omega)
    (fun x y z h1 h2 => by unfold intCmp at h1 h2 ⊢; omega)
    0 1 (by decide) (by decide)

/-- C3: when an array is configured with an `on_destroy` hook, the release
whose pre-decrement share count is 1 nulls the handle, invokes `on_destroy`
once on each of the `length` live elements before freeing the buffer (when
present) and the struct (spec-modelled: the hooked revision is not under
`src/`). -/
theorem hooked_release_destroys_each_element (α : Type) (arr : da_array α)
    (h1 : arr.ref_count = 1) :
    (da_release_hooked true arr).1.handle = none ∧
    (da_release_hooked true arr).1.freed_struct = true ∧
    ((da_release_hooked true arr).2.countP isDestroy) = arr.elems.length ∧
    ∃ frees,
      (da_release_hooked true arr).2
          = arr.elems.map TeardownEvent.destroyElem ++ frees ∧
      (∀ e ∈ frees, isDestroy e = false) ∧
      TeardownEvent.freeStruct ∈ frees ∧
      (arr.data_null = false → TeardownEvent.freeBuffer ∈ frees) := by
  simp only [da_release_hooked, if_pos h1, if_true]
  refine ⟨trivial, trivial, ?_, ?_⟩
  · rw [List.countP_append, List.countP_append]
    have hmap : (arr.elems.map TeardownEvent.destroyElem).countP isDestroy
        = arr.elems.length := by
      rw [List.countP_map]
      simp [isDestroy, Function.comp]
    have hbuf : ((if !arr.data_null then [TeardownEvent.freeBuffer (α := α)]
        else []).countP isDestroy) = 0 := by
      by_cases hd : arr.data_null <;> simp [hd, isDestroy]
    rw [hmap, hbuf]
    simp [isDestroy]
  · refine ⟨(if !arr.data_null then [TeardownEvent.freeBuffer] else [])
      ++ [TeardownEvent.freeStruct], by rw [List.append_assoc], ?_, ?_, ?_⟩
    · intro e he
      rcases List.mem_append.mp he with hb | hs
      · by_cases hd : arr.data_null
        · simp [hd] at hb
        · simp [hd] at hb
          subst hb; rfl
      · rcases List.mem_singleton.mp hs with rfl; rfl
    · exact List.mem_append.mpr (Or.inr (List.mem_singleton.mpr rfl))
    · intro hd
      exact List.mem_append.mpr (Or.inl (by simp [hd]))

theorem hooked_release_destroys_each_element_witness :
    (da_release_hooked true sampleArr).1.handle = none ∧
    (da_release_hooked true sampleArr).1.freed_struct = true ∧
    ((da_release_hooked true sampleArr).2.countP isDestroy)
        = sampleArr.elems.length := by
  have h := hooked_release_destroys_each_element Int sampleArr rfl
  exact ⟨h.1, h.2.1, h.2.2.1⟩

/-- C5: every array operation preserves the data-model invariant
(`0 ≤ length ≤ capacity`, buffer `NULL` iff `capacity = 0`) and never
changes `element_size`; arrays produced by creation (`da_new`) and by
`da_builder_to_array` satisfy the invariant from birth. -/
theorem every_op_preserves_invariant (α : Type) (st : Strategy)
    (hst : StrategyOK st) :
    (∀ (op : ArrOp α) (a a' : da_array α), Inv a → runOp st op a = some a' →
      Inv a' ∧ a'.element_size = a.element_size) ∧
    (∀ (element_size initial_capacity : Nat) (r : da_array α),
      da_new α element_size initial_capacity = some r → Inv r) ∧
    (∀ b : da_builder α, Inv (da_builder_to_array b)) := by
  refine ⟨?_, ?_, ?_⟩
  · intro op a a' ha h
    obtain ⟨hlen, hnull⟩ := ha
    cases op with
    | set i v =>
      simp only [runOp, da_set] at h
      split_ifs at h with hg
      simp only [Option.some.injEq] at h
      subst h
      exact ⟨⟨by simpa using hlen, hnull⟩, rfl⟩
    | push v =>
      simp only [runOp, Option.some.injEq] at h
      subst h
      exact ⟨da_push_inv hst a v ⟨hlen, hnull⟩, da_push_element_size st a v⟩
    | insert i v =>
      simp only [runOp, da_insert] at h
      split_ifs at h with hg
      simp only [Option.some.injEq] at h
      subst h
      obtain ⟨h1, h2⟩ := growIfFull_inv hst a ⟨hlen, hnull⟩
      refine ⟨⟨?_, h2⟩, growIfFull_element_size st a⟩
      rw [growIfFull_elems, List.length_insertIdx i a.elems hg]
      exact h1
    | remove i =>
      simp only [runOp, da_remove] at h
      split_ifs at h with hg
      · simp only [Option.map_some', Option.some.injEq] at h
        subst h
        have hsub := (List.eraseIdx_sublist a.elems i).length_le
        refine ⟨⟨?_, hnull⟩, rfl⟩
        show (a.elems.eraseIdx i).length ≤ a.capacity
        omega
      · simp at h
    | pop =>
      simp only [runOp, da_pop] at h
      split_ifs at h with hg
      · simp only [Option.map_some', Option.some.injEq] at h
        subst h
        have hdl : a.elems.dropLast.length = a.elems.length - 1 :=
          List.length_dropLast a.elems
        refine ⟨⟨?_, hnull⟩, rfl⟩
        show a.elems.dropLast.length ≤ a.capacity
        omega
      · simp at h
    | clear =>
      simp only [runOp, da_clear, Option.some.injEq] at h
      subst h
      exact ⟨⟨by simp, hnull⟩, rfl⟩
    | reserve n =>
      simp only [runOp, da_reserve, Option.some.injEq] at h
      subst h
      by_cases hc : n > a.capacity
      · rw [if_pos hc]
        refine ⟨⟨?_, ?_⟩, rfl⟩
        · show a.elems.length ≤ n
          omega
        · simp only [Bool.false_eq_true, false_iff]
          omega
      · rw [if_neg hc]
        exact ⟨⟨hlen, hnull⟩, rfl⟩
    | resize z n =>
      simp only [runOp, Option.some.injEq] at h
      subst h
      simp only [da_resize, da_reserve]
      split_ifs with h1 h2 h3
      · refine ⟨⟨?_, ?_⟩, rfl⟩
        · show (a.elems ++ List.replicate (n - a.elems.length) z).length ≤ n
          simp
          omega
        · simp only [Bool.false_eq_true, false_iff]
          omega
      · simp at h2
        exact absurd h1 (by omega)
      · refine ⟨⟨?_, hnull⟩, rfl⟩
        show (a.elems ++ List.replicate (n - a.elems.length) z).length ≤ a.capacity
        simp
        omega
      · refine ⟨⟨?_, hnull⟩, rfl⟩
        show (a.elems.take n).length ≤ a.capacity
        simp
        omega
    | trim n =>
      simp only [runOp, da_trim] at h
      split_ifs at h with hg hlt hz
      · simp only [Option.some.injEq] at h
        subst h
        refine ⟨⟨?_, by simp⟩, rfl⟩
        show a.elems.length ≤ 0
        omega
      · simp only [Option.some.injEq] at h
        subst h
        refine ⟨⟨?_, ?_⟩, rfl⟩
        · show a.elems.length ≤ n
          omega
        · simp only [Bool.false_eq_true, false_iff]
          omega
      · simp only [Option.some.injEq] at h
        subst h
        exact ⟨⟨hlen, hnull⟩, rfl⟩
    | appendArray src =>
      simp only [runOp, da_append_array] at h
      split_ifs at h with hsz hzero hcap
      · simp only [Option.some.injEq] at h
        subst h
        exact ⟨⟨hlen, hnull⟩, rfl⟩
      · simp only [Option.some.injEq] at h
        subst h
        have hg := da_grow_capacity_ge hst a.capacity
          (a.elems.length + src.elems.length)
        refine ⟨⟨by simp; omega, ?_⟩, rfl⟩
        simp only [Bool.false_eq_true, false_iff]
        omega
      · simp only [Option.some.injEq] at h
        subst h
        exact ⟨⟨by simp; omega, hnull⟩, rfl⟩
    | appendRaw data =>
      simp only [runOp, da_append_raw, Option.some.injEq] at h
      subst h
      split_ifs with h1 h2
      · exact ⟨⟨hlen, hnull⟩, rfl⟩
      · have hg := da_grow_capacity_ge hst a.capacity
          (a.elems.length + data.length)
        refine ⟨⟨by simp; omega, ?_⟩, rfl⟩
        simp only [Bool.false_eq_true, false_iff]
        omega
      · exact ⟨⟨by simp; omega, hnull⟩, rfl⟩
    | fill v c =>
      simp only [runOp, da_fill, Option.some.injEq] at h
      subst h
      split_ifs with h1 h2
      · exact ⟨⟨hlen, hnull⟩, rfl⟩
      · have hg := da_grow_capacity_ge hst a.capacity (a.elems.length + c)
        refine ⟨⟨by simp; omega, ?_⟩, rfl⟩
        simp only [Bool.false_eq_true, false_iff]
        omega
      · exact ⟨⟨by simp; omega, hnull⟩, rfl⟩
    | concat other =>
      simp only [runOp, da_concat] at h
      split_ifs at h with hsz
      simp only [Option.some.injEq] at h
      subst h
      refine ⟨⟨by simp, ?_⟩, rfl⟩
      simp only [decide_eq_true_eq]
      omega
    | slice s e =>
      simp only [runOp, da_slice] at h
      split_ifs at h with hg
      simp only [Option.some.injEq] at h
      subst h
      refine ⟨⟨?_, ?_⟩, rfl⟩
      · simp only [List.length_drop, List.length_take]
        omega
      · simp only [decide_eq_true_eq]
        omega
    | removeRange s c =>
      simp only [runOp, da_remove_range] at h
      split_ifs at h with hg hzero
      · simp only [Option.some.injEq] at h
        subst h
        exact ⟨⟨hlen, hnull⟩, rfl⟩
      · simp only [Option.some.injEq] at h
        subst h
        refine ⟨⟨?_, hnull⟩, rfl⟩
        simp only [List.length_append, List.length_drop, List.length_take]
        omega
    | reverse =>
      simp only [runOp, da_reverse, Option.some.injEq] at h
      subst h
      exact ⟨⟨by simpa using hlen, hnull⟩, rfl⟩
    | swap i j =>
      simp only [runOp, da_swap] at h
      split_ifs at h with hg heq
      · simp only [Option.some.injEq] at h
        subst h
        exact ⟨⟨hlen, hnull⟩, rfl⟩
      · simp only [Option.some.injEq] at h
        subst h
        exact ⟨⟨by simpa using hlen, hnull⟩, rfl⟩
    | copy =>
      simp only [runOp, da_copy, Option.some.injEq] at h
      subst h
      refine ⟨⟨le_refl _, ?_⟩, rfl⟩
      simp only [decide_eq_true_eq]
      omega
    | map f =>
      simp only [runOp, da_map, Option.some.injEq] at h
      subst h
      refine ⟨⟨by simp, ?_⟩, rfl⟩
      simp only [decide_eq_true_eq]
      omega
    | filter p =>
      simp only [runOp] at h
      unfold da_filter da_builder_create at h
      split_ifs at h with hes
      · simp only [Option.map_some', Option.some.injEq] at h
        subst h
        refine ⟨⟨le_refl _, ?_⟩, ?_⟩
        · simp only [da_builder_to_array, decide_eq_true_eq]
          omega
        · simp only [da_builder_to_array]
          exact filter_foldl_element_size p a.elems _
      · simp at h
    | retain =>
      simp only [runOp, da_retain, Option.some.injEq] at h
      subst h
      exact ⟨⟨hlen, hnull⟩, rfl⟩
    | releaseSurvivor =>
      simp only [runOp, da_release] at h
      split_ifs at h with h1
      simp only [Option.some.injEq] at h
      subst h
      exact ⟨⟨hlen, hnull⟩, rfl⟩
  · intro es cap r h
    unfold da_new at h
    split_ifs at h with hes
    simp only [Option.some.injEq] at h
    subst h
    refine ⟨by simp, ?_⟩
    simp only [decide_eq_true_eq]
    omega
  · intro b
    refine ⟨le_refl _, ?_⟩
    simp only [da_builder_to_array, decide_eq_true_eq]
    omega

theorem every_op_preserves_invariant_witness :
    Inv (da_push Strategy.doubling sampleArr 5) ∧
    (da_push Strategy.doubling sampleArr 5).element_size
        = sampleArr.element_size :=
  (every_op_preserves_invariant Int .doubling (by decide)).1
    (.push 5) sampleArr (da_push .doubling sampleArr 5) (by decide) rfl

end DynamicArray
